import Mathlib

/-!
Shallow embedding of `kitti_semseg.py`, the training / evaluation /
visualization driver of the PointNet12 repository, together with proofs of
the specification claims about it.

Modelling conventions:
* Python floats (learning rates, IoU values, accuracies) are modelled as
  rationals; the script only compares, maxes and averages them.
* File names and paths are modelled as lists of characters, so that the
  `'%04d'` formatting and the `path[:-4].split('-')[-1]` parsing of the
  checkpoint file name can be reasoned about exactly.
* Framework objects (`torch.optim` optimizers, `StepLR`) are modelled by
  the documented state they carry: the per-parameter-group learning rates,
  the scheduler's base rates, step size, gamma and step counter.
  `StepLR.step` writes `base * gamma ^ (steps / step_size)` into every
  parameter group, which is the documented closed form of the scheduler.
* The quantities produced by the opaque external calls (`test_semseg`'s
  accuracy and per-category IoU array) are inputs of the epoch step.
-/

namespace KittiSemseg

/-- Embedding of `np.mean` applied to a one-dimensional array of rationals
(lines 139 and 194 of the script). -/
def npMean (l : List ℚ) : ℚ := l.sum / (l.length : ℚ)

/-- Definition written from the spec's words, for claim C6: the
"arithmetic mean of the per-category IoU values", i.e. their sum divided
by their number. -/
def arithmeticMean (l : List ℚ) : ℚ := l.sum / (l.length : ℚ)

/-- `LEARNING_RATE_CLIP = 1e-5` (line 75). -/
def LEARNING_RATE_CLIP : ℚ := 1 / 100000

/-! ### Decimal digits, `'%04d'` formatting and `int(...)` parsing -/

/-- The decimal digits of `n`, least significant first (`[]` for `0`). -/
def digitsRev : Nat → List Nat
  | 0 => []
  | n + 1 => ((n + 1) % 10) :: digitsRev ((n + 1) / 10)
decreasing_by exact Nat.div_lt_self (Nat.succ_pos n) (by norm_num)

/-- The value of a least-significant-first digit list. -/
def valDigitsRev (l : List Nat) : Nat := l.foldr (fun d a => d + 10 * a) 0

/-- The decimal digits of `n`, most significant first (`[]` for `0`). -/
def natDigits (n : Nat) : List Nat := (digitsRev n).reverse

/-- The characters produced by Python's `'%04d' % n`: the decimal digits
of `n`, left-padded with `'0'` to width 4. -/
def fmt04 (n : Nat) : List Char :=
  List.replicate (4 - ((natDigits n).map Nat.digitChar).length) '0'
    ++ (natDigits n).map Nat.digitChar

/-- The numeric value of a decimal digit character. -/
def charVal (c : Char) : Nat := c.toNat - 48

/-- Embedding of Python's `int(s)` on a string of decimal digits. -/
def parseNatDigits (l : List Char) : Nat :=
  l.foldl (fun a c => 10 * a + charVal c) 0

/-- Embedding of Python's `s.split('-')` on a list of characters. -/
def splitDash : List Char → List (List Char)
  | [] => [[]]
  | c :: rest =>
    if c = '-' then [] :: splitDash rest
    else
      match splitDash rest with
      | [] => [[c]]
      | g :: gs => (c :: g) :: gs

/-- Embedding of Python's `s[:-4]`, dropping the final 4 characters
(the `.pth` extension, line 86). -/
def pyDrop4 (l : List Char) : List Char := l.take (l.length - 4)

/-- Embedding of `int(args.pretrain[:-4].split('-')[-1])` (line 86).
Python's `[-1]` on the (always non-empty) result of `split` is modelled
by `getLastD`. -/
def parseCkptEpochChars (path : List Char) : Nat :=
  parseNatDigits ((splitDash (pyDrop4 path)).getLastD [])

/-- The checkpoint file name written by the training loop (line 150):
`'kitti_semseg-%s-%.5f-%04d.pth' % (model_name, best_meaniou, epoch)`.
The `%s` and `%.5f` fields are arbitrary character lists; the `%04d`
field is the zero-padded epoch number. -/
def ckptName (modelName iouStr : List Char) (epoch : Nat) : List Char :=
  ("kitti_semseg-").toList ++ modelName ++ ("-").toList ++ iouStr
    ++ ("-").toList ++ fmt04 epoch ++ (".pth").toList

/-- Embedding of Python's `range(a, b)`. -/
def pyRange (a b : Nat) : List Nat := List.range' a (b - a)

/-- The starting epoch of the training loop (lines 83-90): `0` when
training from scratch, otherwise the epoch parsed from the pretrained
checkpoint path. -/
def initEpochOf : Option (List Char) → Nat
  | none => 0
  | some p => parseCkptEpochChars p

/-- The epoch indices iterated by `for epoch in range(init_epoch, args.epoch)`
(line 96). -/
def trainEpochIndices (pretrain : Option (List Char)) (epoch : Nat) : List Nat :=
  pyRange (initEpochOf pretrain) epoch

/-! ### Arguments, optimizer, scheduler and the training loop -/

/-- The command-line arguments of the script (lines 28-45). -/
structure Args where
  model_name : String
  mode : String
  batch_size : Nat
  workers : Nat
  epoch : Nat
  pretrain : Option (List Char)
  h5 : String
  gpu : String
  learning_rate : ℚ
  decay_rate : ℚ
  optimizer : String
  augment : Bool
deriving DecidableEq

/-- The argparse defaults (lines 30-41); `0.001 = 1/1000`, `1e-4 = 1/10000`. -/
def defaultArgs : Args :=
  ⟨"pointnet", "train", 8, 6, 200, none, "experiment/pts_sem_voxel_0.10.h5",
    "0", 1 / 1000, 1 / 10000, "Adam", false⟩

/-- A torch optimizer, modelled by its construction arguments; the
learning rate of each parameter group is what the loop reads and writes.
`model.parameters()` yields a single parameter group. -/
structure Optimizer where
  kind : String
  paramGroups : List ℚ
  momentum : Option ℚ
  betas : Option (ℚ × ℚ)
  eps : Option ℚ
  weight_decay : ℚ
deriving DecidableEq

/-- Lines 64-72: `SGD` is built with the hard-coded `lr=0.01, momentum=0.9`;
`Adam` is built with `lr=args.learning_rate, betas=(0.9, 0.999), eps=1e-08,
weight_decay=args.decay_rate`. Any other `--optimizer` value leaves the
Python local `optimizer` unbound, modelled as `none`. -/
def makeOptimizer (a : Args) : Option Optimizer :=
  if a.optimizer = "SGD" then
    some ⟨"SGD", [1 / 100], some (9 / 10), none, none, 0⟩
  else if a.optimizer = "Adam" then
    some ⟨"Adam", [a.learning_rate], none, some (9 / 10, 999 / 1000),
      some (1 / 100000000), a.decay_rate⟩
  else none

/-- `torch.optim.lr_scheduler.StepLR`, modelled by its documented state:
base learning rates, `step_size`, `gamma` and the step counter. -/
structure StepLR where
  baseLrs : List ℚ
  step_size : Nat
  gamma : ℚ
  lastEpoch : Nat
deriving DecidableEq

/-- `StepLR(optimizer, step_size, gamma)` (line 74) captures the
optimizer's current group rates as its base rates. -/
def StepLR.init (opt : Optimizer) (stepSize : Nat) (g : ℚ) : StepLR :=
  ⟨opt.paramGroups, stepSize, g, 0⟩

/-- The documented scheduled rate: `base * gamma ^ (lastEpoch / step_size)`. -/
def StepLR.scheduled (s : StepLR) (base : ℚ) : ℚ :=
  base * s.gamma ^ (s.lastEpoch / s.step_size)

/-- `scheduler.step()` (line 97): advance the counter and write the
scheduled rate of every base rate into the optimizer's parameter groups. -/
def StepLR.step (s : StepLR) (opt : Optimizer) : StepLR × Optimizer :=
  let s' : StepLR := ⟨s.baseLrs, s.step_size, s.gamma, s.lastEpoch + 1⟩
  (s', ⟨opt.kind, s'.baseLrs.map s'.scheduled, opt.momentum, opt.betas,
    opt.eps, opt.weight_decay⟩)

/-- A checkpoint file written by `torch.save` (line 152), recorded by the
values interpolated into its file name. -/
structure SavedCkpt where
  modelName : String
  iou : ℚ
  epoch : Nat
deriving DecidableEq

/-- The externally produced results of one epoch: the accuracy and the
per-category IoU array returned by `test_semseg` (lines 132-138). -/
structure EpochResult where
  accuracy : ℚ
  catMeanIou : List ℚ
deriving DecidableEq

/-- The state threaded through the training loop (lines 92-96):
scheduler, optimizer, `best_acc`, `best_meaniou`, the checkpoints written
so far and the `mean_iou` values computed so far. -/
structure TrainState where
  sched : StepLR
  opt : Optimizer
  bestAcc : ℚ
  bestMeaniou : ℚ
  savedCkpts : List SavedCkpt
  meanIouLog : List ℚ
deriving DecidableEq

/-- One iteration of the epoch loop (lines 96-159): step the scheduler,
clip the rate at `LEARNING_RATE_CLIP` and write it into every parameter
group, run the (opaque) batch loop and `test_semseg`, average the
per-category IoUs, update `best_acc`, and save a checkpoint named with
the updated `best_meaniou` exactly when `mean_iou > best_meaniou`. -/
def trainEpoch (modelName : String) (st : TrainState) (epoch : Nat)
    (r : EpochResult) : TrainState :=
  let so := st.sched.step st.opt
  let lr := max (so.2.paramGroups.headD 0) LEARNING_RATE_CLIP
  let opt : Optimizer := ⟨so.2.kind, so.2.paramGroups.map (fun _ => lr),
    so.2.momentum, so.2.betas, so.2.eps, so.2.weight_decay⟩
  let mean_iou := npMean r.catMeanIou
  let bestAcc := if r.accuracy > st.bestAcc then r.accuracy else st.bestAcc
  let bestMeaniou := if mean_iou > st.bestMeaniou then mean_iou else st.bestMeaniou
  let savedCkpts :=
    if mean_iou > st.bestMeaniou then st.savedCkpts ++ [⟨modelName, bestMeaniou, epoch⟩]
    else st.savedCkpts
  ⟨so.1, opt, bestAcc, bestMeaniou, savedCkpts, st.meanIouLog ++ [mean_iou]⟩

/-- Run the epoch loop over a list of (epoch index, epoch result) pairs. -/
def runEpochs (modelName : String) (st : TrainState) :
    List (Nat × EpochResult) → TrainState
  | [] => st
  | p :: ps => runEpochs modelName (trainEpoch modelName st p.1 p.2) ps

/-- The loop state just before the first epoch (lines 74 and 92-94):
fresh `StepLR(optimizer, step_size=20, gamma=0.5)`, `best_acc = 0`,
`best_meaniou = 0`, nothing saved yet. -/
def initialTrainState (opt : Optimizer) : TrainState :=
  ⟨StepLR.init opt 20 (1 / 2), opt, 0, 0, [], []⟩

/-- The setup phase of `train` (lines 64-94): construct the optimizer,
then the scheduler from it; an unrecognised `--optimizer` value fails
here (unbound `optimizer` at the `StepLR` line), before the epoch loop. -/
def trainInit (a : Args) : Option TrainState :=
  (makeOptimizer a).map initialTrainState

/-- The whole of `train` after data/model construction: setup, then the
epoch loop over `range(init_epoch, args.epoch)` paired with the epoch
results. `none` means the run died before the first epoch. -/
def trainRun (a : Args) (results : List EpochResult) : Option TrainState :=
  (trainInit a).map fun st0 =>
    runEpochs a.model_name st0 ((trainEpochIndices a.pretrain a.epoch).zip results)

/-- What `evaluate` reports (lines 187-196): `none` when it returned early
for a missing pretrained checkpoint, otherwise the accuracy and
`np.mean(cat_mean_iou)`. -/
def evaluateReport (pretrain : Option (List Char)) (acc : ℚ) (cat : List ℚ) :
    Option (ℚ × ℚ) :=
  match pretrain with
  | none => none
  | some _ => some (acc, npMean cat)

/-! ### Events of `evaluate` and `vis` (checkpoint handling) -/

/-- The observable actions of `evaluate` and `vis` relevant to the
missing-pretrained-checkpoint behaviour. -/
inductive EvEvent where
  | errNoPretrain
  | loadCkpt (path : List Char)
  | runTest
deriving DecidableEq

/-- `evaluate` (lines 178-193): with no pretrained path it logs
`'No pretrain model'` and returns; otherwise it loads the checkpoint and
runs `test_semseg`. -/
def evaluateEvents : Option (List Char) → List EvEvent
  | none => [EvEvent.errNoPretrain]
  | some p => [EvEvent.loadCkpt p, EvEvent.runTest]

/-- The checkpoint path hard-coded into `vis` (line 206). -/
def visPretrainPath : List Char :=
  ("experiment/kitti_semseg/pointnet2/kitti_semseg-pointnet2-0.59957-0023.pth").toList

/-- `args.pretrain` as seen inside `vis` (lines 204-206): `vis` re-parses
the arguments and then unconditionally overwrites `pretrain` with the
hard-coded path, ignoring the command line. -/
def visArgsPretrain (_cmdline : Args) : Option (List Char) :=
  some visPretrainPath

/-- The observable actions of `vis` (lines 224-231): the
`if args.pretrain is None` check only logs — it has no `return` — and
since `pretrain` was just overwritten with the hard-coded path the check
never fires; the checkpoint load is then always attempted. -/
def visEvents (cmdline : Args) : List EvEvent :=
  let pretrain := visArgsPretrain cmdline
  (if pretrain = none then [EvEvent.errNoPretrain] else [])
    ++ [EvEvent.loadCkpt (pretrain.getD []), EvEvent.runTest]

/-! ### Phase ordering of a whole run (`__main__`, lines 269-277) -/

/-- The coarse phases a run goes through. -/
inductive Phase where
  | parseArgs
  | buildLoader
  | buildModel
  | ckptLoad
  | ckptSave
  | epochTrain
  | epochTest
  | evalRun
  | visualization
deriving DecidableEq

/-- The phases of the epoch loop: each epoch trains, tests, and saves a
checkpoint when its save flag is set (lines 105-156). -/
def loopPhases (saveFlags : List Bool) : List Phase :=
  (saveFlags.map (fun b =>
    [Phase.epochTrain, Phase.epochTest] ++ if b then [Phase.ckptSave] else [])).flatten

/-- The phases of `train` (lines 48-159): loaders, model, optional
pretrained-checkpoint load, then the epoch loop. -/
def trainTrace (pretrained : Bool) (saveFlags : List Bool) : List Phase :=
  [Phase.buildLoader, Phase.buildModel]
    ++ (if pretrained then [Phase.ckptLoad] else [])
    ++ loopPhases saveFlags

/-- The phases of `evaluate` (lines 161-197): loaders, model, and — only
when a pretrained path was given — checkpoint load and the test run. -/
def evalTrace (pretrained : Bool) : List Phase :=
  [Phase.buildLoader, Phase.buildModel]
    ++ (if pretrained then [Phase.ckptLoad, Phase.evalRun] else [])

/-- The phases of `vis` (lines 203-267): it re-parses the arguments,
builds loaders and model, always loads the hard-coded checkpoint, then
visualizes. -/
def visTrace : List Phase :=
  [Phase.parseArgs, Phase.buildLoader, Phase.buildModel, Phase.ckptLoad,
    Phase.visualization]

/-- `__main__` (lines 269-277): parse the arguments, then dispatch on
`args.mode` through three independent `if` statements. -/
def mainTrace (mode : String) (pretrained : Bool) (saveFlags : List Bool) :
    List Phase :=
  [Phase.parseArgs]
    ++ (if mode = "train" then trainTrace pretrained saveFlags else [])
    ++ (if mode = "eval" then evalTrace pretrained else [])
    ++ (if mode = "vis" then visTrace else [])

/-! ## Helper lemmas about decimal digits and `'-'`-splitting -/

theorem valDigitsRev_digitsRev (n : Nat) : valDigitsRev (digitsRev n) = n := by
  induction n using Nat.strong_induction_on with
  | _ n ih =>
    match n with
    | 0 => simp [digitsRev, valDigitsRev]
    | m + 1 =>
      rw [digitsRev, valDigitsRev]
      simp only [List.foldr_cons]
      have h : (m + 1) / 10 < m + 1 := Nat.div_lt_self (Nat.succ_pos m) (by norm_num)
      have hv := ih ((m + 1) / 10) h
      rw [valDigitsRev] at hv
      rw [hv]
      exact Nat.mod_add_div (m + 1) 10

theorem digitsRev_lt (n : Nat) : ∀ d ∈ digitsRev n, d < 10 := by
  induction n using Nat.strong_induction_on with
  | _ n ih =>
    match n with
    | 0 => intro d hd; simp [digitsRev] at hd
    | m + 1 =>
      intro d hd
      rw [digitsRev] at hd
      rcases List.mem_cons.mp hd with h | h
      · subst h; exact Nat.mod_lt _ (by norm_num)
      · exact ih ((m + 1) / 10) (Nat.div_lt_self (Nat.succ_pos m) (by norm_num)) d h

theorem natDigits_lt (n : Nat) : ∀ d ∈ natDigits n, d < 10 := by
  intro d hd
  exact digitsRev_lt n d (List.mem_reverse.mp hd)

theorem valDigitsRev_append_single (xs : List Nat) (d : Nat) :
    valDigitsRev (xs ++ [d]) = valDigitsRev xs + d * 10 ^ xs.length := by
  induction xs with
  | nil => simp [valDigitsRev]
  | cons x xs ih =>
    simp only [List.cons_append, valDigitsRev, List.foldr_cons, List.length_cons] at *
    rw [ih]
    ring

theorem foldl_digits_eq (l : List Nat) :
    ∀ a, l.foldl (fun a d => 10 * a + d) a = a * 10 ^ l.length + valDigitsRev l.reverse := by
  induction l with
  | nil => intro a; simp [valDigitsRev]
  | cons d l ih =>
    intro a
    simp only [List.foldl_cons, List.length_cons, List.reverse_cons]
    rw [ih, valDigitsRev_append_single]
    simp only [List.length_reverse]
    ring

theorem charVal_digitChar (d : Nat) (h : d < 10) : charVal (Nat.digitChar d) = d := by
  interval_cases d <;> rfl

theorem foldl_map_digitChar (ds : List Nat) (h : ∀ d ∈ ds, d < 10) :
    ∀ a, (ds.map Nat.digitChar).foldl (fun a c => 10 * a + charVal c) a
      = ds.foldl (fun a d => 10 * a + d) a := by
  induction ds with
  | nil => intro a; rfl
  | cons d ds ih =>
    intro a
    simp only [List.map_cons, List.foldl_cons]
    rw [charVal_digitChar d (h d (List.mem_cons_self d ds))]
    exact ih (fun x hx => h x (List.mem_cons_of_mem d hx)) _

theorem parse_replicate_zero (k : Nat) (rest : List Char) :
    parseNatDigits (List.replicate k '0' ++ rest) = parseNatDigits rest := by
  induction k with
  | zero => simp
  | succ k ih =>
    have h0 : (10 * 0 + charVal '0') = 0 := rfl
    simp only [List.replicate_succ, List.cons_append, parseNatDigits, List.foldl_cons, h0]
    simpa [parseNatDigits] using ih

theorem parse_fmt04 (e : Nat) : parseNatDigits (fmt04 e) = e := by
  rw [fmt04, parse_replicate_zero]
  show ((natDigits e).map Nat.digitChar).foldl (fun a c => 10 * a + charVal c) 0 = e
  rw [foldl_map_digitChar _ (natDigits_lt e) 0, foldl_digits_eq]
  simp [natDigits, valDigitsRev_digitsRev]

theorem splitDash_dash (t : List Char) : splitDash ('-' :: t) = [] :: splitDash t := by
  simp [splitDash]

theorem splitDash_cons (c : Char) (t g : List Char) (gs : List (List Char))
    (h : ¬ c = '-') (hs : splitDash t = g :: gs) :
    splitDash (c :: t) = (c :: g) :: gs := by
  simp only [splitDash, if_neg h, hs]

theorem splitDash_ne_nil (l : List Char) : splitDash l ≠ [] := by
  cases l with
  | nil => simp [splitDash]
  | cons c rest =>
    by_cases h : c = '-'
    · subst h
      rw [splitDash_dash]
      simp
    · cases hs : splitDash rest with
      | nil => simp only [splitDash, if_neg h, hs]; simp
      | cons g gs =>
        rw [splitDash_cons c rest g gs h hs]
        simp

theorem splitDash_no_dash (l : List Char) (h : '-' ∉ l) : splitDash l = [l] := by
  induction l with
  | nil => rfl
  | cons c rest ih =>
    have hc : ¬ c = '-' := by intro hc; exact h (by simp [hc])
    have hr : splitDash rest = [rest] := ih (fun hm => h (List.mem_cons_of_mem c hm))
    rw [splitDash_cons c rest rest [] hc hr]

theorem splitDash_append_length (s t : List Char) :
    2 ≤ (splitDash (s ++ '-' :: t)).length := by
  induction s with
  | nil =>
    rw [List.nil_append, splitDash_dash]
    have h1 : 1 ≤ (splitDash t).length := List.length_pos.mpr (splitDash_ne_nil t)
    simp only [List.length_cons]
    omega
  | cons c s ih =>
    rw [List.cons_append]
    by_cases h : c = '-'
    · subst h
      rw [splitDash_dash]
      simp only [List.length_cons]
      omega
    · obtain ⟨g, gs, hs⟩ : ∃ g gs, splitDash (s ++ '-' :: t) = g :: gs := by
        cases hsd : splitDash (s ++ '-' :: t) with
        | nil => exact absurd hsd (splitDash_ne_nil _)
        | cons g gs => exact ⟨g, gs, rfl⟩
      rw [splitDash_cons c _ g gs h hs]
      rw [hs] at ih
      simp only [List.length_cons] at ih ⊢
      omega

theorem getLastD_irrel {α : Type} (r : List α) (h : r ≠ []) (d d' : α) :
    r.getLastD d = r.getLastD d' := by
  cases r with
  | nil => exact absurd rfl h
  | cons a l => rw [List.getLastD_cons, List.getLastD_cons]

theorem splitDash_last (s t : List Char) :
    (splitDash (s ++ '-' :: t)).getLastD [] = (splitDash t).getLastD [] := by
  induction s with
  | nil =>
    rw [List.nil_append, splitDash_dash, List.getLastD_cons]
  | cons c s ih =>
    rw [List.cons_append]
    by_cases h : c = '-'
    · subst h
      rw [splitDash_dash, List.getLastD_cons]
      exact ih
    · obtain ⟨g, gs, hs⟩ : ∃ g gs, splitDash (s ++ '-' :: t) = g :: gs := by
        cases hsd : splitDash (s ++ '-' :: t) with
        | nil => exact absurd hsd (splitDash_ne_nil _)
        | cons g gs => exact ⟨g, gs, rfl⟩
      rw [splitDash_cons c _ g gs h hs, List.getLastD_cons]
      have h2 := splitDash_append_length s t
      rw [hs] at h2 ih
      rw [List.getLastD_cons] at ih
      have hgs : gs ≠ [] := by
        intro hg
        rw [hg] at h2
        simp at h2
      calc gs.getLastD (c :: g) = gs.getLastD g := getLastD_irrel gs hgs _ _
        _ = (splitDash t).getLastD [] := ih


theorem fmt04_no_dash (e : Nat) : '-' ∉ fmt04 e := by
  rw [fmt04]
  intro hmem
  rcases List.mem_append.mp hmem with h | h
  · have hz := List.eq_of_mem_replicate h
    exact absurd hz (by decide)
  · rcases List.mem_map.mp h with ⟨d, hd, hEq⟩
    have hlt : d < 10 := natDigits_lt e d hd
    interval_cases d <;> exact absurd hEq (by decide)

/-- C8: round-trip of the checkpoint file name and the resume epoch: for
every model-name string, every IoU string and every epoch number `e`, the
training save's file name `'kitti_semseg-<model>-<iou>-<epoch %04d>.pth'`,
fed back through `int(path[:-4].split('-')[-1])`, parses back to `e`. -/
theorem C8_ckpt_name_roundtrip (modelName iouStr : List Char) (e : Nat) :
    parseCkptEpochChars (ckptName modelName iouStr e) = e := by
  have hlen : (".pth").toList.length = 4 := rfl
  have hdrop : pyDrop4 (ckptName modelName iouStr e)
      = ("kitti_semseg-").toList ++ modelName ++ ("-").toList ++ iouStr
        ++ ("-").toList ++ fmt04 e := by
    rw [ckptName, pyDrop4]
    rw [List.length_append, hlen]
    simp only [Nat.add_sub_cancel]
    exact List.take_left _ _
  rw [parseCkptEpochChars, hdrop]
  have h1 : ("-").toList = ['-'] := rfl
  have hsplit : ("kitti_semseg-").toList ++ modelName ++ ("-").toList ++ iouStr
      ++ ("-").toList ++ fmt04 e
      = (("kitti_semseg-").toList ++ modelName ++ ("-").toList ++ iouStr)
        ++ '-' :: fmt04 e := by
    rw [h1]
    simp [List.append_assoc]
  rw [hsplit, splitDash_last, splitDash_no_dash (fmt04 e) (fmt04_no_dash e)]
  rw [List.getLastD_cons]
  exact parse_fmt04 e

/-! ## Helper lemmas about the training loop -/

theorem trainEpoch_sched (mn : String) (st : TrainState) (e : Nat) (r : EpochResult) :
    (trainEpoch mn st e r).sched
      = ⟨st.sched.baseLrs, st.sched.step_size, st.sched.gamma, st.sched.lastEpoch + 1⟩ := rfl

theorem trainEpoch_log (mn : String) (st : TrainState) (e : Nat) (r : EpochResult) :
    (trainEpoch mn st e r).meanIouLog = st.meanIouLog ++ [npMean r.catMeanIou] := rfl

theorem trainEpoch_bestAcc (mn : String) (st : TrainState) (e : Nat) (r : EpochResult) :
    (trainEpoch mn st e r).bestAcc = max st.bestAcc r.accuracy := by
  show (if r.accuracy > st.bestAcc then r.accuracy else st.bestAcc) = _
  rcases le_or_lt r.accuracy st.bestAcc with h | h
  · rw [if_neg (not_lt.mpr h), max_eq_left h]
  · rw [if_pos h, max_eq_right h.le]

theorem trainEpoch_bestMeaniou (mn : String) (st : TrainState) (e : Nat) (r : EpochResult) :
    (trainEpoch mn st e r).bestMeaniou = max st.bestMeaniou (npMean r.catMeanIou) := by
  show (if npMean r.catMeanIou > st.bestMeaniou then npMean r.catMeanIou else st.bestMeaniou) = _
  rcases le_or_lt (npMean r.catMeanIou) st.bestMeaniou with h | h
  · rw [if_neg (not_lt.mpr h), max_eq_left h]
  · rw [if_pos h, max_eq_right h.le]

theorem trainEpoch_saved (mn : String) (st : TrainState) (e : Nat) (r : EpochResult) :
    (trainEpoch mn st e r).savedCkpts
      = if npMean r.catMeanIou > st.bestMeaniou
        then st.savedCkpts ++ [⟨mn, npMean r.catMeanIou, e⟩]
        else st.savedCkpts := by
  show (if npMean r.catMeanIou > st.bestMeaniou
      then st.savedCkpts
        ++ [⟨mn, if npMean r.catMeanIou > st.bestMeaniou then npMean r.catMeanIou else st.bestMeaniou, e⟩]
      else st.savedCkpts) = _
  split_ifs <;> rfl

theorem trainEpoch_opt_params (mn : String) (st : TrainState) (e : Nat) (r : EpochResult)
    (b : ℚ) (hb : st.sched.baseLrs = [b]) :
    (trainEpoch mn st e r).opt.paramGroups
      = [max (b * st.sched.gamma ^ ((st.sched.lastEpoch + 1) / st.sched.step_size))
          LEARNING_RATE_CLIP] := by
  simp only [trainEpoch, StepLR.step, hb, List.map_cons, List.map_nil, List.headD_cons,
    StepLR.scheduled]

theorem runEpochs_nil (mn : String) (st : TrainState) : runEpochs mn st [] = st := rfl

theorem runEpochs_cons (mn : String) (st : TrainState) (p : Nat × EpochResult)
    (ps : List (Nat × EpochResult)) :
    runEpochs mn st (p :: ps) = runEpochs mn (trainEpoch mn st p.1 p.2) ps := rfl

theorem runEpochs_append (mn : String) (l1 l2 : List (Nat × EpochResult)) :
    ∀ st, runEpochs mn st (l1 ++ l2) = runEpochs mn (runEpochs mn st l1) l2 := by
  induction l1 with
  | nil => intro st; rfl
  | cons p ps ih => intro st; rw [List.cons_append, runEpochs_cons, runEpochs_cons, ih]

theorem runEpochs_sched (mn : String) (ps : List (Nat × EpochResult)) :
    ∀ st, (runEpochs mn st ps).sched
      = ⟨st.sched.baseLrs, st.sched.step_size, st.sched.gamma,
          st.sched.lastEpoch + ps.length⟩ := by
  induction ps with
  | nil =>
    intro st
    rw [runEpochs_nil]
    simp
  | cons p ps ih =>
    intro st
    rw [runEpochs_cons, ih, trainEpoch_sched]
    simp only [List.length_cons, StepLR.mk.injEq]
    refine ⟨trivial, trivial, trivial, ?_⟩
    omega

theorem runEpochs_params (mn : String) (b : ℚ) (ps : List (Nat × EpochResult)) :
    ∀ st, st.sched.baseLrs = [b] → ps ≠ [] →
      (runEpochs mn st ps).opt.paramGroups
        = [max (b * st.sched.gamma ^ ((st.sched.lastEpoch + ps.length) / st.sched.step_size))
            LEARNING_RATE_CLIP] := by
  induction ps with
  | nil => intro st hb hne; exact absurd rfl hne
  | cons p ps ih =>
    intro st hb hne
    rw [runEpochs_cons]
    by_cases hps : ps = []
    · subst hps
      rw [runEpochs_nil, trainEpoch_opt_params mn st p.1 p.2 b hb]
      simp
    · have hb' : (trainEpoch mn st p.1 p.2).sched.baseLrs = [b] := by
        rw [trainEpoch_sched]
        exact hb
      rw [ih _ hb' hps, trainEpoch_sched]
      simp only [List.length_cons]
      have harith : st.sched.lastEpoch + 1 + ps.length = st.sched.lastEpoch + (ps.length + 1) := by
        omega
      rw [harith]

theorem runEpochs_bestMeaniou (mn : String) (ps : List (Nat × EpochResult)) :
    ∀ st, (runEpochs mn st ps).bestMeaniou
      = (ps.map (fun p => npMean p.2.catMeanIou)).foldl max st.bestMeaniou := by
  induction ps with
  | nil => intro st; rfl
  | cons p ps ih =>
    intro st
    rw [runEpochs_cons, ih, List.map_cons, List.foldl_cons, trainEpoch_bestMeaniou]

theorem runEpochs_bestAcc (mn : String) (ps : List (Nat × EpochResult)) :
    ∀ st, (runEpochs mn st ps).bestAcc
      = (ps.map (fun p => p.2.accuracy)).foldl max st.bestAcc := by
  induction ps with
  | nil => intro st; rfl
  | cons p ps ih =>
    intro st
    rw [runEpochs_cons, ih, List.map_cons, List.foldl_cons, trainEpoch_bestAcc]

theorem runEpochs_log (mn : String) (ps : List (Nat × EpochResult)) :
    ∀ st, (runEpochs mn st ps).meanIouLog
      = st.meanIouLog ++ ps.map (fun p => npMean p.2.catMeanIou) := by
  induction ps with
  | nil => intro st; simp [runEpochs_nil]
  | cons p ps ih =>
    intro st
    rw [runEpochs_cons, ih, trainEpoch_log, List.map_cons, List.append_assoc,
      List.singleton_append]

theorem runEpochs_saved_mem (mn : String) (ps : List (Nat × EpochResult)) :
    ∀ st c, c ∈ (runEpochs mn st ps).savedCkpts →
      c ∈ st.savedCkpts ∨ ∃ p ∈ ps, c = ⟨mn, npMean p.2.catMeanIou, p.1⟩ := by
  induction ps with
  | nil => intro st c hc; exact Or.inl hc
  | cons p ps ih =>
    intro st c hc
    rw [runEpochs_cons] at hc
    rcases ih _ c hc with h | ⟨q, hq, hcq⟩
    · rw [trainEpoch_saved] at h
      by_cases hcond : npMean p.2.catMeanIou > st.bestMeaniou
      · rw [if_pos hcond] at h
        rcases List.mem_append.mp h with h | h
        · exact Or.inl h
        · exact Or.inr ⟨p, List.mem_cons_self p ps, List.mem_singleton.mp h⟩
      · rw [if_neg hcond] at h
        exact Or.inl h
    · exact Or.inr ⟨q, List.mem_cons_of_mem p hq, hcq⟩

theorem le_foldl_max (l : List ℚ) : ∀ b, b ≤ l.foldl max b := by
  induction l with
  | nil => intro b; exact le_refl b
  | cons x l ih => intro b; exact le_trans (le_max_left b x) (ih (max b x))

/-! ## Claim theorems about the training loop -/

/-- C4: in train mode the learning rate follows the step schedule: after
the `k`-th epoch's `scheduler.step()` the rate written into every
optimizer parameter group equals `max(base * 0.5 ^ ((k+1) / 20), 1e-5)`,
so it is halved every 20 scheduler steps and never drops below the clip
value `1e-5`. -/
theorem C4_lr_schedule (b : ℚ) (mn : String) (opt : Optimizer)
    (hopt : opt.paramGroups = [b]) (ps : List (Nat × EpochResult)) (k : Nat)
    (hk : k < ps.length) :
    (runEpochs mn (initialTrainState opt) (ps.take (k + 1))).opt.paramGroups
        = [max (b * (1 / 2 : ℚ) ^ ((k + 1) / 20)) LEARNING_RATE_CLIP]
    ∧ (∀ lr ∈ (runEpochs mn (initialTrainState opt) (ps.take (k + 1))).opt.paramGroups,
        LEARNING_RATE_CLIP ≤ lr)
    ∧ (∀ n : Nat, b * (1 / 2 : ℚ) ^ ((n + 20) / 20) = b * (1 / 2 : ℚ) ^ (n / 20) / 2) := by
  have hlen : (ps.take (k + 1)).length = k + 1 := by
    rw [List.length_take]
    omega
  have hne : ps.take (k + 1) ≠ [] := by
    intro h
    rw [h] at hlen
    simp at hlen
  have hbase : (initialTrainState opt).sched.baseLrs = [b] := by
    simpa [initialTrainState, StepLR.init] using hopt
  have hmain := runEpochs_params mn b (ps.take (k + 1)) (initialTrainState opt) hbase hne
  rw [hlen] at hmain
  have hmain' : (runEpochs mn (initialTrainState opt) (ps.take (k + 1))).opt.paramGroups
      = [max (b * (1 / 2 : ℚ) ^ ((k + 1) / 20)) LEARNING_RATE_CLIP] := by
    simpa [initialTrainState, StepLR.init] using hmain
  refine ⟨hmain', ?_, ?_⟩
  · intro lr hlr
    rw [hmain'] at hlr
    rw [List.mem_singleton.mp hlr]
    exact le_max_right _ _
  · intro n
    have h20 : (n + 20) / 20 = n / 20 + 1 := Nat.add_div_right n (by norm_num)
    rw [h20, pow_succ]
    ring

theorem C4_lr_schedule_witness :
    (runEpochs "pointnet"
        (initialTrainState ⟨"Adam", [1 / 1000], none, some (9 / 10, 999 / 1000),
          some (1 / 100000000), 1 / 10000⟩)
        ([((0 : Nat), (⟨0, []⟩ : EpochResult))].take (0 + 1))).opt.paramGroups
      = [max ((1 / 1000 : ℚ) * (1 / 2 : ℚ) ^ ((0 + 1) / 20)) LEARNING_RATE_CLIP] :=
  (C4_lr_schedule (1 / 1000) "pointnet"
    ⟨"Adam", [1 / 1000], none, some (9 / 10, 999 / 1000), some (1 / 100000000), 1 / 10000⟩
    rfl [((0 : Nat), (⟨0, []⟩ : EpochResult))] 0 (by decide)).1

/-- C1: in train mode a checkpoint is saved at the end of epoch `k` if
and only if that epoch's mean IoU strictly exceeds the running best mean
IoU over all previous epochs (which starts at 0); when it does not, the
saved-checkpoint list is unchanged, while the tracked best accuracy is
still updated to `max` with the epoch's accuracy — so an accuracy
improvement alone never triggers a save. -/
theorem C1_checkpoint_save_iff (opt : Optimizer) (mn : String)
    (ps : List (Nat × EpochResult)) (k : Nat) (hk : k < ps.length) :
    ((runEpochs mn (initialTrainState opt) (ps.take (k + 1))).savedCkpts.length
        = (runEpochs mn (initialTrainState opt) (ps.take k)).savedCkpts.length + 1
      ↔ npMean ps[k].2.catMeanIou
          > ((ps.take k).map (fun p => npMean p.2.catMeanIou)).foldl max 0)
    ∧ (¬ npMean ps[k].2.catMeanIou
          > ((ps.take k).map (fun p => npMean p.2.catMeanIou)).foldl max 0
        → (runEpochs mn (initialTrainState opt) (ps.take (k + 1))).savedCkpts
            = (runEpochs mn (initialTrainState opt) (ps.take k)).savedCkpts)
    ∧ (runEpochs mn (initialTrainState opt) (ps.take (k + 1))).bestAcc
        = max (runEpochs mn (initialTrainState opt) (ps.take k)).bestAcc
            ps[k].2.accuracy := by
  have htake : ps.take (k + 1) = ps.take k ++ [ps[k]] := by
    rw [← List.take_concat_get ps k hk, List.concat_eq_append]
  have hbest : (runEpochs mn (initialTrainState opt) (ps.take k)).bestMeaniou
      = ((ps.take k).map (fun p => npMean p.2.catMeanIou)).foldl max 0 := by
    rw [runEpochs_bestMeaniou]
    rfl
  rw [htake, runEpochs_append, runEpochs_cons, runEpochs_nil]
  refine ⟨?_, ?_, ?_⟩
  · rw [trainEpoch_saved, hbest]
    by_cases hcond : npMean ps[k].2.catMeanIou
        > ((ps.take k).map (fun p => npMean p.2.catMeanIou)).foldl max 0
    · rw [if_pos hcond]
      exact iff_of_true (by simp) hcond
    · rw [if_neg hcond]
      exact iff_of_false (by omega) hcond
  · intro hcond
    rw [trainEpoch_saved, hbest, if_neg hcond]
  · rw [trainEpoch_bestAcc]

theorem C1_checkpoint_save_iff_witness :
    (runEpochs "pointnet"
        (initialTrainState ⟨"Adam", [1 / 1000], none, some (9 / 10, 999 / 1000),
          some (1 / 100000000), 1 / 10000⟩)
        ([((0 : Nat), (⟨1, [1]⟩ : EpochResult))].take (0 + 1))).bestAcc
      = max (runEpochs "pointnet"
          (initialTrainState ⟨"Adam", [1 / 1000], none, some (9 / 10, 999 / 1000),
            some (1 / 100000000), 1 / 10000⟩)
          ([((0 : Nat), (⟨1, [1]⟩ : EpochResult))].take 0)).bestAcc
          ([((0 : Nat), (⟨1, [1]⟩ : EpochResult))])[0].2.accuracy :=
  (C1_checkpoint_save_iff
    ⟨"Adam", [1 / 1000], none, some (9 / 10, 999 / 1000), some (1 / 100000000), 1 / 10000⟩
    "pointnet" [((0 : Nat), (⟨1, [1]⟩ : EpochResult))] 0 (by decide)).2.2

/-- C9: the tracked bests are non-decreasing across every epoch; after any
number of epochs of a run the tracked best mean IoU equals the maximum
(starting from 0) of the per-epoch mean IoUs observed so far; and every
checkpoint saved during a run carries in its file name the model name,
the mean IoU of the epoch that saved it, and that epoch's number. -/
theorem C9_best_tracking (opt : Optimizer) (mn : String) (st : TrainState)
    (e : Nat) (r : EpochResult) (ps : List (Nat × EpochResult)) (c : SavedCkpt) :
    (st.bestAcc ≤ (trainEpoch mn st e r).bestAcc
      ∧ st.bestMeaniou ≤ (trainEpoch mn st e r).bestMeaniou)
    ∧ (runEpochs mn (initialTrainState opt) ps).bestMeaniou
        = (ps.map (fun p => npMean p.2.catMeanIou)).foldl max 0
    ∧ (c ∈ (runEpochs mn (initialTrainState opt) ps).savedCkpts
        → ∃ p ∈ ps, c = ⟨mn, npMean p.2.catMeanIou, p.1⟩) := by
  refine ⟨⟨?_, ?_⟩, ?_, ?_⟩
  · rw [trainEpoch_bestAcc]
    exact le_max_left _ _
  · rw [trainEpoch_bestMeaniou]
    exact le_max_left _ _
  · rw [runEpochs_bestMeaniou]
    rfl
  · intro hc
    rcases runEpochs_saved_mem mn ps (initialTrainState opt) c hc with h | h
    · simp [initialTrainState] at h
    · exact h

theorem C9_best_tracking_witness :
    ∃ p ∈ [((5 : Nat), (⟨1 / 2, [1 / 2, 1]⟩ : EpochResult))],
      (⟨"pointnet", 3 / 4, 5⟩ : SavedCkpt) = ⟨"pointnet", npMean p.2.catMeanIou, p.1⟩ :=
  (C9_best_tracking
    ⟨"Adam", [1 / 1000], none, some (9 / 10, 999 / 1000), some (1 / 100000000), 1 / 10000⟩
    "pointnet" (initialTrainState
      ⟨"Adam", [1 / 1000], none, some (9 / 10, 999 / 1000), some (1 / 100000000), 1 / 10000⟩)
    0 ⟨0, []⟩ [((5 : Nat), (⟨1 / 2, [1 / 2, 1]⟩ : EpochResult))]
    ⟨"pointnet", 3 / 4, 5⟩).2.2
    (by
      rw [runEpochs_cons, runEpochs_nil, trainEpoch_saved]
      norm_num [npMean, initialTrainState])

/-- C6: the mean IoU the script works with — the value logged each train
epoch and the value reported by `evaluate` — is `np.mean` of the
per-category IoU list returned by `test_semseg`, which is exactly the
arithmetic mean of those values: their sum divided by their count. -/
theorem C6_mean_iou_report (opt : Optimizer) (mn : String)
    (ps : List (Nat × EpochResult)) (p : List Char) (a : ℚ) (cat : List ℚ) :
    (runEpochs mn (initialTrainState opt) ps).meanIouLog
        = ps.map (fun q => arithmeticMean q.2.catMeanIou)
    ∧ evaluateReport (some p) a cat = some (a, arithmeticMean cat)
    ∧ (cat ≠ [] → arithmeticMean cat * (cat.length : ℚ) = cat.sum) := by
  refine ⟨?_, rfl, ?_⟩
  · rw [runEpochs_log]
    simp only [initialTrainState, List.nil_append]
    rfl
  · intro hne
    have hL : (cat.length : ℚ) ≠ 0 := by
      have hn : cat.length ≠ 0 := fun h => hne (List.length_eq_zero.mp h)
      exact_mod_cast hn
    rw [arithmeticMean]
    exact div_mul_cancel₀ _ hL

theorem C6_mean_iou_report_witness :
    arithmeticMean [1 / 2, 1] * (([(1 : ℚ) / 2, 1].length : ℚ)) = [(1 : ℚ) / 2, 1].sum :=
  (C6_mean_iou_report
    ⟨"Adam", [1 / 1000], none, some (9 / 10, 999 / 1000), some (1 / 100000000), 1 / 10000⟩
    "pointnet" [] [] 0 [1 / 2, 1]).2.2 (by simp)

/-- C5: the epoch loop `for epoch in range(init_epoch, args.epoch)`
starts at 0 and performs exactly `epoch` iterations when training from
scratch; with a pretrained checkpoint it starts at the epoch parsed from
the checkpoint file name and performs `epoch - init_epoch` iterations. -/
theorem C5_epoch_range (p : List Char) (E : Nat) (h : parseCkptEpochChars p ≤ E) :
    trainEpochIndices none E = List.range E
    ∧ (trainEpochIndices none E).length = E
    ∧ (trainEpochIndices (some p) E).length = E - parseCkptEpochChars p
    ∧ (parseCkptEpochChars p < E
        → (trainEpochIndices (some p) E).head? = some (parseCkptEpochChars p)) := by
  refine ⟨?_, ?_, ?_, ?_⟩
  · rw [trainEpochIndices, pyRange, initEpochOf, Nat.sub_zero, List.range_eq_range']
  · rw [trainEpochIndices, pyRange, initEpochOf, Nat.sub_zero, List.length_range']
  · rw [trainEpochIndices, pyRange, initEpochOf, List.length_range']
  · intro hlt
    rw [trainEpochIndices, pyRange, initEpochOf]
    obtain ⟨m, hm⟩ : ∃ m, E - parseCkptEpochChars p = m + 1 :=
      ⟨E - parseCkptEpochChars p - 1, by omega⟩
    rw [hm, List.range'_succ]
    rfl

theorem C5_epoch_range_witness :
    (trainEpochIndices
        (some (("kitti_semseg-pointnet2-0.59957-0023.pth").toList)) 200).length
      = 200 - parseCkptEpochChars (("kitti_semseg-pointnet2-0.59957-0023.pth").toList) :=
  (C5_epoch_range (("kitti_semseg-pointnet2-0.59957-0023.pth").toList) 200
    (by decide)).2.2.1

/-! ## Optimizer construction, missing-pretrain handling, phase order -/

/-- C10: an optimizer is constructed exactly when `--optimizer` is `'SGD'`
or `'Adam'`; for any other value the `optimizer` local is never bound and
the run dies at the scheduler line, before the epoch loop (`trainRun`
produces no state); when it is constructed, the scheduler is built from
it and captures its parameter-group rates as base rates. -/
theorem C10_optimizer_guard (a : Args) (rs : List EpochResult) :
    ((makeOptimizer a).isSome ↔ (a.optimizer = "SGD" ∨ a.optimizer = "Adam"))
    ∧ (¬ (a.optimizer = "SGD" ∨ a.optimizer = "Adam") → trainRun a rs = none)
    ∧ (∀ opt, makeOptimizer a = some opt
        → trainInit a = some (initialTrainState opt)
          ∧ (initialTrainState opt).sched.baseLrs = opt.paramGroups) := by
  refine ⟨?_, ?_, ?_⟩
  · rw [makeOptimizer]
    by_cases h1 : a.optimizer = "SGD"
    · simp [h1]
    · by_cases h2 : a.optimizer = "Adam" <;> simp [h1, h2]
  · intro h
    push_neg at h
    rw [trainRun, trainInit, makeOptimizer, if_neg h.1, if_neg h.2]
    rfl
  · intro opt hopt
    constructor
    · rw [trainInit, hopt]
      rfl
    · rfl

theorem C10_optimizer_guard_witness : (makeOptimizer defaultArgs).isSome :=
  (C10_optimizer_guard defaultArgs []).1.mpr (Or.inr rfl)

/-- C3 counterexample: running `train` with `--optimizer SGD` and the
default `--learning_rate 0.001` builds an optimizer whose parameter-group
rate is the hard-coded `0.01`, not the command-line `0.001` — so the
learning-rate argument is not forwarded for every accepted optimizer. -/
theorem C3_counterexample :
    (⟨"pointnet", "train", 8, 6, 200, none, "experiment/pts_sem_voxel_0.10.h5",
        "0", 1 / 1000, 1 / 10000, "SGD", false⟩ : Args).learning_rate = 1 / 1000
    ∧ (makeOptimizer ⟨"pointnet", "train", 8, 6, 200, none,
        "experiment/pts_sem_voxel_0.10.h5", "0", 1 / 1000, 1 / 10000, "SGD", false⟩).map
        Optimizer.paramGroups = some [1 / 100]
    ∧ ((1 : ℚ) / 100) ≠ 1 / 1000 := by
  refine ⟨rfl, rfl, ?_⟩
  norm_num

/-- C3 amended: only for `--optimizer Adam` is the `--learning_rate`
argument forwarded as the optimizer's initial learning rate; for
`--optimizer SGD` the initial rate is the hard-coded `0.01` (with
momentum `0.9`) and the argument is ignored. -/
theorem C3_lr_forwarding (a : Args) :
    (a.optimizer = "Adam"
      → (makeOptimizer a).map Optimizer.paramGroups = some [a.learning_rate])
    ∧ (a.optimizer = "SGD"
      → (makeOptimizer a).map Optimizer.paramGroups = some [1 / 100]
        ∧ (makeOptimizer a).map Optimizer.momentum = some (some (9 / 10))) := by
  constructor
  · intro h
    have hs : ¬ a.optimizer = "SGD" := by
      rw [h]
      decide
    rw [makeOptimizer, if_neg hs, if_pos h]
    rfl
  · intro h
    rw [makeOptimizer, if_pos h]
    exact ⟨rfl, rfl⟩

theorem C3_lr_forwarding_witness :
    (makeOptimizer defaultArgs).map Optimizer.paramGroups
      = some [defaultArgs.learning_rate] :=
  (C3_lr_forwarding defaultArgs).1 rfl

/-- C2 counterexample: in `vis` mode with no `--pretrain` on the command
line, the script does not report a missing pretrained file and does not
stop: `vis` overwrites `args.pretrain` with a hard-coded path, the
`is None` check (which has no `return`) never fires, and a checkpoint
load is attempted anyway. -/
theorem C2_counterexample :
    EvEvent.errNoPretrain ∉ visEvents ⟨"pointnet2", "vis", 8, 6, 200, none,
        "experiment/pts_sem_voxel_0.10.h5", "0", 1 / 1000, 1 / 10000, "Adam", false⟩
    ∧ EvEvent.loadCkpt visPretrainPath ∈ visEvents ⟨"pointnet2", "vis", 8, 6, 200, none,
        "experiment/pts_sem_voxel_0.10.h5", "0", 1 / 1000, 1 / 10000, "Adam", false⟩ := by
  constructor
  · intro h
    simp [visEvents, visArgsPretrain] at h
  · simp [visEvents, visArgsPretrain]

/-- C2 amended: `evaluate` behaves as claimed — with `pretrain = None` it
only reports the missing pretrained model and returns, loading nothing
and running nothing; `vis` however never takes that path: its `pretrain`
is unconditionally overwritten with a hard-coded checkpoint path before
the check, the check never fires (and has no `return`), and the
checkpoint load is always attempted. -/
theorem C2_missing_pretrain (a : Args) (q : List Char) :
    evaluateEvents none = [EvEvent.errNoPretrain]
    ∧ EvEvent.loadCkpt q ∉ evaluateEvents none
    ∧ EvEvent.runTest ∉ evaluateEvents none
    ∧ evaluateEvents (some q) = [EvEvent.loadCkpt q, EvEvent.runTest]
    ∧ EvEvent.errNoPretrain ∉ visEvents a
    ∧ EvEvent.loadCkpt visPretrainPath ∈ visEvents a := by
  refine ⟨rfl, ?_, ?_, rfl, ?_, ?_⟩
  · simp [evaluateEvents]
  · simp [evaluateEvents]
  · simp [visEvents, visArgsPretrain]
  · simp [visEvents, visArgsPretrain]

theorem C2_missing_pretrain_witness :
    EvEvent.loadCkpt visPretrainPath ∈ visEvents defaultArgs :=
  (C2_missing_pretrain defaultArgs []).2.2.2.2.2

theorem vis_not_mem_loopPhases (saveFlags : List Bool) :
    Phase.visualization ∉ loopPhases saveFlags := by
  induction saveFlags with
  | nil => simp [loopPhases]
  | cons b bs ih =>
    simp only [loopPhases, List.map_cons, List.flatten_cons, List.mem_append]
    intro h
    rcases h with h | h
    · cases b <;> simp_all
    · exact ih h

/-- C7: every run parses arguments first; nothing but argument parsing
happens before data-loader construction; nothing but argument parsing and
loader construction happens before model construction — in particular all
checkpoint I/O (the save inside the train loop, the load in eval/vis) and
the training/evaluation loops come after model construction; and the
visualization phase occurs exactly when the mode is `'vis'`. -/
theorem C7_phase_order (mode : String) (pretrained : Bool) (saveFlags : List Bool) :
    (mainTrace mode pretrained saveFlags).head? = some Phase.parseArgs
    ∧ ((mainTrace mode pretrained saveFlags).takeWhile
        (fun q => decide (q ≠ Phase.buildLoader))).all
        (fun q => q == Phase.parseArgs) = true
    ∧ ((mainTrace mode pretrained saveFlags).takeWhile
        (fun q => decide (q ≠ Phase.buildModel))).all
        (fun q => q == Phase.parseArgs || q == Phase.buildLoader) = true
    ∧ (Phase.visualization ∈ mainTrace mode pretrained saveFlags ↔ mode = "vis") := by
  by_cases h1 : mode = "train"
  · subst h1
    have htr : mainTrace "train" pretrained saveFlags
        = Phase.parseArgs :: Phase.buildLoader :: Phase.buildModel ::
          ((if pretrained then [Phase.ckptLoad] else []) ++ loopPhases saveFlags) := by
      rw [mainTrace, if_pos rfl, if_neg (by decide : ¬("train" : String) = "eval"),
        if_neg (by decide : ¬("train" : String) = "vis"), trainTrace]
      simp [List.append_assoc]
    rw [htr]
    refine ⟨rfl, rfl, rfl, ?_⟩
    constructor
    · intro h
      exfalso
      simp only [List.mem_cons, List.mem_append] at h
      rcases h with h | h | h | h | h
      · exact absurd h (by decide)
      · exact absurd h (by decide)
      · exact absurd h (by decide)
      · cases pretrained <;> simp_all
      · exact vis_not_mem_loopPhases saveFlags h
    · intro h
      exact absurd h (by decide)
  · by_cases h2 : mode = "eval"
    · subst h2
      have hev : mainTrace "eval" pretrained saveFlags
          = Phase.parseArgs :: Phase.buildLoader :: Phase.buildModel ::
            (if pretrained then [Phase.ckptLoad, Phase.evalRun] else []) := by
        rw [mainTrace, if_neg (by decide : ¬("eval" : String) = "train"), if_pos rfl,
          if_neg (by decide : ¬("eval" : String) = "vis"), evalTrace]
        simp [List.append_assoc]
      rw [hev]
      refine ⟨rfl, rfl, rfl, ?_⟩
      constructor
      · intro h
        exfalso
        simp only [List.mem_cons] at h
        rcases h with h | h | h | h
        · exact absurd h (by decide)
        · exact absurd h (by decide)
        · exact absurd h (by decide)
        · cases pretrained <;> simp_all
      · intro h
        exact absurd h (by decide)
    · by_cases h3 : mode = "vis"
      · subst h3
        have hv : mainTrace "vis" pretrained saveFlags
            = [Phase.parseArgs, Phase.parseArgs, Phase.buildLoader, Phase.buildModel,
                Phase.ckptLoad, Phase.visualization] := by
          rw [mainTrace, if_neg (by decide : ¬("vis" : String) = "train"),
            if_neg (by decide : ¬("vis" : String) = "eval"), if_pos rfl, visTrace]
          rfl
        rw [hv]
        refine ⟨rfl, rfl, rfl, ?_⟩
        simp
      · rw [mainTrace, if_neg h1, if_neg h2, if_neg h3]
        refine ⟨rfl, rfl, rfl, ?_⟩
        simp only [List.append_nil, List.mem_singleton]
        constructor
        · intro h
          exact absurd h (by decide)
        · intro h
          exact absurd h h3

end KittiSemseg
